import Mathlib

/-!
Verification of the chunked-transcription pipeline (split_and_transcribe.py)
and the HTML post-processing logic (portfolio_generator.py).

The pipeline is embedded shallowly:
  - the filesystem is an association list from abstract file identifiers to
    file data; `unlink(missing_ok=True)` is total erasure, `open("a")` is
    append-or-create;
  - the external transcription engine (whisper invoked per chunk) is an
    environment function from the 1-based segment ordinal to an ok/err
    result; on ok the engine materialises the per-segment transcript file,
    exactly as the subprocess does;
  - audio decoding (pydub AudioSegment.from_file) is an environment value:
    either an IO error or a total duration in milliseconds; slicing
    `audio[start:start+SEGMENT_MS]` yields a slice of length
    `min SEGMENT_MS (D - start)` as Python slicing clamps;
  - markup (BeautifulSoup with html.parser) is a tree of element and text
    nodes; `str(soup)` serialisation escapes the characters needing it in
    text nodes; Python `str.replace`, `str.strip`, `str.startswith` and
    substring tests are modelled character-exactly on `List Char`.
-/

namespace Transcribe

/-- Fixed window length of split_and_transcribe.py: SEGMENT_MS = 10 * 60 * 1000. -/
def SEGMENT_MS : Nat := 10 * 60 * 1000

/-- Abstract file identifiers for the artifacts the pipeline touches, keyed
by the naming scheme of the source: the uploaded source file, the chunk mp3
`chunks/<stem>_part<i>.mp3`, the per-segment transcript
`chunks/<stem>_part<i>.txt`, and the aggregate `output/<stem>_full.txt`. -/
inductive FileId where
  | source
  | chunk (i : Nat)
  | partTxt (i : Nat)
  | fullTxt
deriving DecidableEq

/-- Contents of a file: the uploaded audio, an exported mp3 slice (recorded
with its start offset and length in ms), or text. -/
inductive FileData where
  | sourceAudio
  | audioSlice (start len : Nat)
  | text (s : String)
deriving DecidableEq

/-- A filesystem: an association list from file ids to contents. -/
def FS := List (FileId × FileData)

/-- Look a file up. -/
def fsGet (k : FileId) : FS → Option FileData
  | [] => none
  | (k', v) :: r => if k = k' then some v else fsGet k r

/-- Delete a file; deleting an absent file is not an error
(`unlink(missing_ok=True)`). -/
def fsErase (k : FileId) : FS → FS
  | [] => []
  | (k', v) :: r => if k' = k then fsErase k r else (k', v) :: fsErase k r

/-- Create or overwrite a file. -/
def fsSet (k : FileId) (v : FileData) (fs : FS) : FS := (k, v) :: fsErase k fs

/-- Append text to a file, creating it when absent (Python `open(_, "a")`). -/
def fsAppend (k : FileId) (s : String) (fs : FS) : FS :=
  match fsGet k fs with
  | some (.text old) => fsSet k (.text (old ++ s)) fs
  | _ => fsSet k (.text s) fs

/-- Result of one whisper subprocess invocation: its textual output, or a
non-zero exit with diagnostic output. -/
inductive EngRes where
  | ok (txt : String)
  | err (diag : String)
deriving DecidableEq

/-- Failures of the pipeline: the source could not be decoded
(AudioSegment.from_file raised), or the engine failed on segment i
(subprocess.CalledProcessError propagated from transcribe_chunk). -/
inductive TError where
  | ioFailure
  | engineFailure (i : Nat) (diag : String)
deriving DecidableEq

/-- Environment of one invocation: the decode result of the source file and
the engine's behaviour per segment ordinal. -/
structure TEnv where
  load : Except Unit Nat
  engine : Nat → EngRes

/-- Observable events of a run: an mp3 chunk was exported, or the engine was
invoked on segment i. -/
inductive Ev where
  | mkChunk (i start len : Nat)
  | call (i : Nat)
deriving DecidableEq

/-- Characters Python `str.strip()` removes at both ends. -/
def pyStripL (s : List Char) : List Char :=
  ((s.dropWhile Char.isWhitespace).reverse.dropWhile Char.isWhitespace).reverse

/-- Python `str.strip()` on a string. -/
def pyStripS (s : String) : String := String.mk (pyStripL s.toList)

/-- transcribe_chunk: invoke the engine on chunk i; on success whisper writes
`chunks/<stem>_part<i>.txt` and the path is returned, on failure the
CalledProcessError propagates carrying the diagnostic output. -/
def transcribe_chunk (eng : Nat → EngRes) (i : Nat) (fs : FS) : Except TError FS :=
  match eng i with
  | .err d => .error (.engineFailure i d)
  | .ok txt => .ok (fsSet (.partTxt i) (.text txt) fs)

/-- One iteration of the segment loop: export the mp3 slice, then inside
try/finally invoke transcribe_chunk and on success append the trimmed
transcript plus a line break to the aggregate file; the finally clause
deletes the chunk mp3 and the per-segment txt on success and failure alike. -/
def processSeg (eng : Nat → EngRes) (D i start : Nat) (fs : FS) :
    Except TError Unit × FS × List Ev :=
  let len := min SEGMENT_MS (D - start)
  let fs1 := fsSet (.chunk i) (.audioSlice start len) fs
  let evs := [Ev.mkChunk i start len, Ev.call i]
  match transcribe_chunk eng i fs1 with
  | .error e => (.error e, fsErase (.partTxt i) (fsErase (.chunk i) fs1), evs)
  | .ok fs2 =>
      let txt := match fsGet (.partTxt i) fs2 with
                 | some (.text s) => s
                 | _ => ""
      let fs3 := fsAppend .fullTxt (pyStripS txt ++ "\n") fs2
      (.ok (), fsErase (.partTxt i) (fsErase (.chunk i) fs3), evs)

/-- The segment loop: sequential, aborts at the first failing segment. -/
def loop (eng : Nat → EngRes) (D : Nat) : List (Nat × Nat) → FS → Except TError Unit × FS × List Ev
  | [], fs => (.ok (), fs, [])
  | (i, start) :: rest, fs =>
    match processSeg eng D i start fs with
    | (.ok _, fs', evs) =>
        let out := loop eng D rest fs'
        (out.1, out.2.1, evs ++ out.2.2)
    | (.error e, fs', evs) => (.error e, fs', evs)

/-- Python `range(0, stop, step)` for positive step: ceil(stop/step) values
counted from 0 by step. -/
def pyRange (stop step : Nat) : List Nat := List.range' 0 ((stop + step - 1) / step) step

/-- Python `enumerate(xs, start=i)`. -/
def enumFrom : Nat → List Nat → List (Nat × Nat)
  | _, [] => []
  | i, a :: as => (i, a) :: enumFrom (i+1) as

/-- The planned segments of a source of duration D:
`enumerate(range(0, len(audio), SEGMENT_MS), start=1)`. -/
def segPlan (D : Nat) : List (Nat × Nat) := enumFrom 1 (pyRange D SEGMENT_MS)

/-- Filesystem as the HTTP handler leaves it before the call: the uploaded
source, and possibly an aggregate transcript left over from an earlier run
on a source with the same stem. -/
def initFS : Option String → FS
  | none => [(.source, .sourceAudio)]
  | some s => [(.source, .sourceAudio), (.fullTxt, .text s)]

/-- Outcome of the run: a completed loop returns the aggregate transcript's
path, an aborted loop propagates the segment failure to the caller. -/
def resultOf : Except TError Unit → Except TError FileId
  | .ok _ => .ok .fullTxt
  | .error e => .error e

/-- split_and_transcribe: delete any stale aggregate transcript, decode the
source, process the planned segments in order, and in the outer finally
delete the source file on every exit path; on success return the aggregate
transcript's path. -/
def split_and_transcribe (env : TEnv) (fs : FS) : Except TError FileId × FS × List Ev :=
  let fs0 := fsErase .fullTxt fs
  match env.load with
  | .error _ => (.error .ioFailure, fsErase .source fs0, [])
  | .ok D =>
    let out := loop env.engine D (segPlan D) fs0
    (resultOf out.1, fsErase .source out.2.1, out.2.2)

/-- Engine that always succeeds, producing text `t i` on segment i. -/
def allOk (t : Nat → String) : Nat → EngRes := fun i => .ok (t i)

/-- A run over a readable source of duration D with an always-succeeding
engine, from an initial filesystem with optional stale aggregate. -/
def runWith (D : Nat) (t : Nat → String) (old : Option String) :
    Except TError FileId × FS × List Ev :=
  split_and_transcribe ⟨.ok D, allOk t⟩ (initFS old)

/-- Chunk-export events of a trace, in order. -/
def exportsOf : List Ev → List (Nat × Nat × Nat)
  | [] => []
  | .mkChunk i s l :: r => (i, s, l) :: exportsOf r
  | .call _ :: r => exportsOf r

/-- Engine-invocation events of a trace, in order. -/
def callsOf : List Ev → List Nat
  | [] => []
  | .mkChunk _ _ _ :: r => callsOf r
  | .call i :: r => i :: callsOf r

/-- Ordered concatenation of the per-segment trimmed transcripts, one line
break after each, over a segment plan. -/
def joinSegs (t : Nat → String) : List (Nat × Nat) → String
  | [] => ""
  | p :: r => pyStripS (t p.1) ++ "\n" ++ joinSegs t r

/-- Engine of the 25-minute scenario: segment 1 succeeds, segment 2 fails. -/
def scenarioEng : Nat → EngRes := fun i =>
  if i = 1 then .ok " hello " else if i = 2 then .err "boom" else .ok ""

/-- The 25-minute scenario run: a 1,500,000 ms source, a fresh filesystem. -/
def scenarioRun : Except TError FileId × FS × List Ev :=
  split_and_transcribe ⟨.ok 1500000, scenarioEng⟩ (initFS none)

/-- Absence of every temporary artifact: no chunk mp3 and no per-segment
transcript of any index is present. -/
def NoTemp (fs : FS) : Prop :=
  ∀ j, fsGet (.chunk j) fs = none ∧ fsGet (.partTxt j) fs = none

/-- Text content of an aggregate-file lookup, empty when absent. -/
def contentOr : Option FileData → String
  | some (.text t) => t
  | _ => ""

/-- Engine texts of the two-segment concrete run used as witness input. -/
def tWit : Nat → String := fun i => if i = 1 then " a " else "b"

end Transcribe

deriving instance DecidableEq for Except

namespace Markup

/- Mutual tree of markup nodes: text nodes (NavigableString) and elements
with a tag and children, as BeautifulSoup's html.parser produces for the
attribute-free fragments this pipeline handles. -/
mutual
inductive Node where
  | text (s : List Char) : Node
  | elem (tag : List Char) (children : NodeList) : Node
deriving DecidableEq
inductive NodeList where
  | nil : NodeList
  | cons (n : Node) (l : NodeList) : NodeList
deriving DecidableEq
end

/-- Test whether pat is an initial segment of s (Python `str.startswith`). -/
def begMatch : List Char → List Char → Bool
  | [], _ => true
  | _ :: _, [] => false
  | p :: ps, c :: cs => p = c && begMatch ps cs

/-- Substring test (Python `pat in s`). -/
def hasSub (p : List Char) : List Char → Bool
  | [] => p.isEmpty
  | c :: rest => begMatch p (c :: rest) || hasSub p rest

/-- Worker for Python `str.replace(pat, rep)`: scan left to right, replace
each non-overlapping occurrence, resume after the replaced region; the Nat
counter skips the remainder of a matched occurrence. -/
def replaceSkip (pat rep : List Char) : Nat → List Char → List Char
  | _, [] => []
  | 0, c :: rest =>
      if begMatch pat (c :: rest) then rep ++ replaceSkip pat rep (pat.length - 1) rest
      else c :: replaceSkip pat rep 0 rest
  | k+1, _ :: rest => replaceSkip pat rep k rest

/-- Python `s.replace(pat, rep)` on character lists. -/
def pyReplace (pat rep s : List Char) : List Char :=
  if pat.isEmpty then s else replaceSkip pat rep 0 s

/-- Remove every occurrence of pat (Python `s.replace(pat, "")`). -/
def removeAll (pat s : List Char) : List Char := pyReplace pat [] s

/-- Drop everything strictly before the first occurrence of pat
(Python `s[s.index(pat):]` when pat occurs; whole-string drop otherwise). -/
def dropBefore (pat : List Char) : List Char → List Char
  | [] => []
  | c :: rest => if begMatch pat (c :: rest) then c :: rest else dropBefore pat rest

/-- The bare markdown fence marker. -/
def fence3 : List Char := "```".toList

/-- The fence-plus-language marker for HTML. -/
def fenceHtml : List Char := "```html".toList

/-- Treatment of one text node in sanitize_html: when it contains a fence
marker, replace it with the node text minus `\x60\x60\x60html` minus
`\x60\x60\x60`; otherwise leave the node alone. -/
def sanitizeText (s : List Char) : List Char :=
  if hasSub fence3 s then removeAll fence3 (removeAll fenceHtml s) else s

/- Apply sanitizeText to every text node of the tree, leaving elements in
place (the soup loop replaces each matching NavigableString in situ). -/
mutual
def sanitizeN : Node → Node
  | .text s => .text (sanitizeText s)
  | .elem t cs => .elem t (sanitizeL cs)
def sanitizeL : NodeList → NodeList
  | .nil => .nil
  | .cons n l => .cons (sanitizeN n) (sanitizeL l)
end

/-- Minimal-formatter escaping BeautifulSoup's str() applies to text. -/
def escChar (c : Char) : List Char :=
  if c = '&' then "&amp;".toList
  else if c = '<' then "&lt;".toList
  else if c = '>' then "&gt;".toList
  else [c]

/-- Escape a whole text content. -/
def escape (s : List Char) : List Char := (s.map escChar).flatten

/- Serialisation back to markup text, as str(soup) renders these trees. -/
mutual
def serializeN : Node → List Char
  | .text s => escape s
  | .elem t cs =>
      "<".toList ++ t ++ ">".toList ++ serializeL cs ++ "</".toList ++ t ++ ">".toList
def serializeL : NodeList → List Char
  | .nil => []
  | .cons n l => serializeN n ++ serializeL l
end

/- Concatenated text content of a subtree (BeautifulSoup `.text`). -/
mutual
def textN : Node → List Char
  | .text s => s
  | .elem _ cs => textL cs
def textL : NodeList → List Char
  | .nil => []
  | .cons n l => textN n ++ textL l
end

/- Text-node contents of a tree, in document order. -/
mutual
def textsN : Node → List (List Char)
  | .text s => [s]
  | .elem _ cs => textsL cs
def textsL : NodeList → List (List Char)
  | .nil => []
  | .cons n l => textsN n ++ textsL l
end

/- Shape of a tree: the element structure with all text content erased. -/
mutual
def shapeN : Node → Node
  | .text _ => .text []
  | .elem t cs => .elem t (shapeL cs)
def shapeL : NodeList → NodeList
  | .nil => .nil
  | .cons n l => .cons (shapeN n) (shapeL l)
end

/-- Tag name of h2 heading elements. -/
def h2T : List Char := "h2".toList

/-- Tag name of section elements. -/
def secT : List Char := "section".toList

/-- First h2 descendant in document order (`section.find("h2")`). -/
def findH2 : NodeList → Option Node
  | .nil => none
  | .cons (.text _) rest => findH2 rest
  | .cons (.elem t cs) rest =>
      if t = h2T then some (.elem t cs)
      else match findH2 cs with
        | some n => some n
        | none => findH2 rest

/-- Trim as Python `str.strip()` on character lists. -/
def stripL (s : List Char) : List Char :=
  ((s.dropWhile Char.isWhitespace).reverse.dropWhile Char.isWhitespace).reverse

/-- deduplicate_sections walk: sections are visited in document order with
the set of heading keys seen so far; a section whose h2 key was already
seen is decomposed (removed with its whole body, nothing inside it visited
further), a section with a fresh key is kept and its key recorded, a
section without an h2 is always kept; the walk descends into kept nodes. -/
def dedupL (seen : List (List Char)) : NodeList → NodeList × List (List Char)
  | .nil => (.nil, seen)
  | .cons (.text s) rest =>
      let o := dedupL seen rest
      (.cons (.text s) o.1, o.2)
  | .cons (.elem t cs) rest =>
      if t = secT then
        match findH2 cs with
        | some h2n =>
            let key := stripL (textN h2n)
            if key ∈ seen then dedupL seen rest
            else
              let inner := dedupL (key :: seen) cs
              let o := dedupL inner.2 rest
              (.cons (.elem t inner.1) o.1, o.2)
        | none =>
            let inner := dedupL seen cs
            let o := dedupL inner.2 rest
            (.cons (.elem t inner.1) o.1, o.2)
      else
        let inner := dedupL seen cs
        let o := dedupL inner.2 rest
        (.cons (.elem t inner.1) o.1, o.2)

/-- Parse tree of the fence scenario input
`\x60\x60\x60html\n<section><h2>Skills</h2>X</section>\x60\x60\x60`. -/
def T6 : NodeList :=
  .cons (.text "```html\n".toList)
    (.cons (.elem secT
      (.cons (.elem h2T (.cons (.text "Skills".toList) .nil))
        (.cons (.text "X".toList) .nil)))
      (.cons (.text "```".toList) .nil))

/-- One flat section as the generator emits them: an optional h2 heading
text and a body text. -/
def mkSection : Option (List Char) × List Char → Node
  | (some h, b) => .elem secT (.cons (.elem h2T (.cons (.text h) .nil)) (.cons (.text b) .nil))
  | (none, b) => .elem secT (.cons (.text b) .nil)

/-- A flat fragment of such sections. -/
def mkFrag : List (Option (List Char) × List Char) → NodeList
  | [] => .nil
  | e :: r => .cons (mkSection e) (mkFrag r)

/-- Reference first-occurrence filter over the abstract section list: keep a
headed section iff its trimmed heading is new, keep headingless sections
always. -/
def keepFirstAux (seen : List (List Char)) :
    List (Option (List Char) × List Char) → List (Option (List Char) × List Char)
  | [] => []
  | (some h, b) :: r =>
      if stripL h ∈ seen then keepFirstAux seen r
      else (some h, b) :: keepFirstAux (stripL h :: seen) r
  | (none, b) :: r => (none, b) :: keepFirstAux seen r

/-- The A,B,A,C,B scenario fragment of the deduplication property. -/
def scenarioFrag : List (Option (List Char) × List Char) :=
  [(some "A".toList, "1".toList), (some "B".toList, "2".toList),
   (some "A".toList, "3".toList), (some "C".toList, "4".toList),
   (some "B".toList, "5".toList)]

end Markup

namespace Portfolio

/-- Failure taxonomy of generate_portfolio: empty presentation, missing
template file (IOError from load_text), model download failure, model
initialisation failure, generation failure, a clarification-request
response, a response that is neither, and a PDF renderer exception. -/
inductive PErr where
  | emptyInput
  | templateMissing
  | downloadFailed
  | modelInitFailed
  | generationFailed
  | clarificationNeeded
  | malformedResponse
  | renderFailed
deriving DecidableEq

/-- Environment of one generation request: outcomes of the external
collaborators (template loads, model download and init, LLM generation,
markup parser, PDF renderer). -/
structure PEnv where
  promptTpl : Except PErr String
  layoutTpl : Except PErr String
  modelDownload : Except PErr String
  modelInit : Except PErr Unit
  llmText : Except PErr String
  parse : String → Markup.NodeList
  renderPdf : String → Except PErr (List Nat)

/-- Python `str.lstrip()`. -/
def pyLStrip (s : List Char) : List Char := s.dropWhile Char.isWhitespace

/-- Prompt-template surgery of generate_portfolio: drop everything before
the first occurrence of the step-2 marker and then the remainder of that
line, when the marker occurs. -/
def stripStep2 (s : List Char) : List Char :=
  if Markup.hasSub "Шаг 2".toList s then
    let t := Markup.dropBefore "Шаг 2".toList s
    if Markup.hasSub "\n".toList t then List.drop 1 (Markup.dropBefore "\n".toList t) else t
  else s

/-- sanitize_html: parse, strip fence markers inside text nodes, serialise. -/
def sanitize_html (parse : String → Markup.NodeList) (raw : String) : String :=
  String.mk (Markup.serializeL (Markup.sanitizeL (parse raw)))

/-- deduplicate_sections: parse, remove sections with already-seen h2 keys,
serialise. -/
def deduplicate_sections (parse : String → Markup.NodeList) (html : String) : String :=
  String.mk (Markup.serializeL ((Markup.dedupL [] (parse html)).1))

/-- Final stage of generate_portfolio: render the PDF from the full page —
the renderer's exception is caught, logged and swallowed, so on a renderer
failure the page is still returned, with empty PDF bytes. -/
def finishPdf (env : PEnv) (full_html : String) : Except PErr (String × List Nat) :=
  match env.renderPdf full_html with
  | .ok b => .ok (full_html, b)
  | .error _ => .ok (full_html, [])

/-- generate_portfolio: validate the presentation text, load both templates,
build the prompt, download and initialise the model, generate, veto or
repair a JSON-looking response, sanitize and deduplicate the fragment,
embed it in the layout, and render the PDF — a renderer exception is caught
and yields empty PDF bytes rather than a failure. -/
def generate_portfolio (env : PEnv) (p : String) : Except PErr (String × List Nat) :=
  if Transcribe.pyStripS p = "" then .error .emptyInput
  else
    match env.promptTpl with
    | .error e => .error e
    | .ok prompt_tpl =>
      match env.layoutTpl with
      | .error e => .error e
      | .ok layout_tpl =>
        let prompt_tpl2 := stripStep2 prompt_tpl.toList
        let _prompt := Markup.pyReplace "\x7bself_presentation\x7d".toList p.toList prompt_tpl2
        match env.modelDownload with
        | .error e => .error e
        | .ok _path =>
          match env.modelInit with
          | .error e => .error e
          | .ok _ =>
            match env.llmText with
            | .error e => .error e
            | .ok resp =>
              let generated := Transcribe.pyStripS resp
              if Markup.begMatch "\x7b".toList (pyLStrip generated.toList)
                  && !Markup.hasSub "<section".toList generated.toList then
                .error .clarificationNeeded
              else
                let generated2 :=
                  if Markup.begMatch "\x7b".toList (pyLStrip generated.toList)
                      && Markup.hasSub "<section".toList generated.toList then
                    String.mk (Markup.dropBefore "<section".toList generated.toList)
                  else generated
                let clean_html := sanitize_html env.parse generated2
                let deduped := deduplicate_sections env.parse clean_html
                let full_html :=
                  String.mk (Markup.pyReplace "\x7b\x7bcontent\x7d\x7d".toList
                    deduped.toList layout_tpl.toList)
                finishPdf env full_html

/-- Environment in which every stage succeeds except the PDF renderer. -/
def envPdfFail : PEnv where
  promptTpl := .ok "P"
  layoutTpl := .ok "L"
  modelDownload := .ok "m"
  modelInit := .ok ()
  llmText := .ok "t"
  parse := fun s => .cons (.text s.toList) .nil
  renderPdf := fun _ => .error .renderFailed

/-- Environment in which the generation stage fails. -/
def envLlmFail : PEnv where
  promptTpl := .ok "P"
  layoutTpl := .ok "L"
  modelDownload := .ok "m"
  modelInit := .ok ()
  llmText := .error .generationFailed
  parse := fun s => .cons (.text s.toList) .nil
  renderPdf := fun s => .ok [s.length]

/-- Environment in which the generation stage returns a JSON
clarification-request payload (brace-prefixed, no section markup). -/
def envClarify : PEnv where
  promptTpl := .ok "P"
  layoutTpl := .ok "L"
  modelDownload := .ok "m"
  modelInit := .ok ()
  llmText := .ok "\x7b\x7d"
  parse := fun s => .cons (.text s.toList) .nil
  renderPdf := fun s => .ok [s.length]

end Portfolio

namespace Transcribe

/-- Lookup after erasure: the erased key reads absent, others unchanged. -/
@[simp]
theorem fsGet_fsErase (k k' : FileId) (fs : FS) :
    fsGet k (fsErase k' fs) = if k = k' then none else fsGet k fs := by
  induction fs with
  | nil => simp [fsErase, fsGet]
  | cons hd tl ih =>
      obtain ⟨a, v⟩ := hd
      by_cases h1 : a = k'
      · subst h1
        by_cases h3 : k = a
        · subst h3
          simp [fsErase, fsGet, ih]
        · simp [fsErase, fsGet, ih, h3]
      · by_cases h2 : k = a
        · subst h2
          simp [fsErase, fsGet, h1]
        · simp [fsErase, fsGet, ih, h1, h2]

/-- Lookup after creation: the written key reads the value, others unchanged. -/
@[simp]
theorem fsGet_fsSet (k k' : FileId) (v : FileData) (fs : FS) :
    fsGet k (fsSet k' v fs) = if k = k' then some v else fsGet k fs := by
  by_cases h : k = k' <;> simp [fsSet, fsGet, h]

/-- Appending to one file leaves every other file unchanged. -/
@[simp]
theorem fsGet_fsAppend_ne (k k' : FileId) (s : String) (fs : FS) (h : k ≠ k') :
    fsGet k (fsAppend k' s fs) = fsGet k fs := by
  rcases hf : fsGet k' fs with _ | v
  · simp [fsAppend, hf, h]
  · cases v <;> simp [fsAppend, hf, h]

/-- Appending extends the file's text, creating the file when absent. -/
theorem fsGet_fsAppend_self (k : FileId) (s : String) (fs : FS) :
    fsGet k (fsAppend k s fs) = some (.text (contentOr (fsGet k fs) ++ s)) := by
  rcases hf : fsGet k fs with _ | v
  · simp [fsAppend, hf, contentOr]
  · cases v <;> simp [fsAppend, hf, contentOr]

/-- One loop iteration preserves the absence of every temporary artifact:
whatever the engine does, the chunk mp3 and the per-segment txt it touched
are deleted again before the iteration ends. -/
theorem processSeg_noTemp (eng : Nat → EngRes) (D i start : Nat) (fs : FS)
    (h : NoTemp fs) : NoTemp (processSeg eng D i start fs).2.1 := by
  intro j
  obtain ⟨h1, h2⟩ := h j
  by_cases hj : j = i
  · subst hj
    cases heng : eng j <;>
      simp [processSeg, transcribe_chunk, heng, h1, h2]
  · cases heng : eng i <;>
      simp [processSeg, transcribe_chunk, heng, h1, h2, hj]

/-- The whole loop preserves the absence of every temporary artifact. -/
theorem loop_noTemp (eng : Nat → EngRes) (D : Nat) :
    ∀ (segs : List (Nat × Nat)) (fs : FS), NoTemp fs → NoTemp (loop eng D segs fs).2.1 := by
  intro segs
  induction segs with
  | nil => intro fs h; simpa [loop] using h
  | cons p rest ih =>
      intro fs h
      obtain ⟨i, s⟩ := p
      have hp := processSeg_noTemp eng D i s fs h
      rcases hps : processSeg eng D i s fs with ⟨r, fs', evs⟩
      rw [hps] at hp
      cases r with
      | ok _ => simpa [loop, hps] using ih fs' hp
      | error e => simpa [loop, hps] using hp

/-- The initial filesystem, after the stale-aggregate deletion, holds no
temporary artifact. -/
theorem initFS_noTemp (old : Option String) : NoTemp (fsErase .fullTxt (initFS old)) := by
  intro j; cases old <;> simp [initFS, fsErase, fsGet]

/-- Components of a run whose source could not be decoded. -/
theorem split_err_fst (env : TEnv) (fs : FS) (u : Unit) (h : env.load = .error u) :
    (split_and_transcribe env fs).1 = .error .ioFailure := by
  rw [split_and_transcribe, h]

/-- Filesystem of a run whose source could not be decoded. -/
theorem split_err_fs (env : TEnv) (fs : FS) (u : Unit) (h : env.load = .error u) :
    (split_and_transcribe env fs).2.1 = fsErase .source (fsErase .fullTxt fs) := by
  rw [split_and_transcribe, h]

/-- Trace of a run whose source could not be decoded. -/
theorem split_err_evs (env : TEnv) (fs : FS) (u : Unit) (h : env.load = .error u) :
    (split_and_transcribe env fs).2.2 = [] := by
  rw [split_and_transcribe, h]

/-- A run over a decoded source in full: the loop's outcome, its filesystem
with the source deleted, and its trace. -/
theorem split_ok_all (env : TEnv) (fs : FS) (D : Nat) (h : env.load = .ok D) :
    split_and_transcribe env fs =
      (resultOf (loop env.engine D (segPlan D) (fsErase .fullTxt fs)).1,
       fsErase .source (loop env.engine D (segPlan D) (fsErase .fullTxt fs)).2.1,
       (loop env.engine D (segPlan D) (fsErase .fullTxt fs)).2.2) := by
  rw [split_and_transcribe, h]

/-- Result of a run over a decoded source: the loop's outcome. -/
theorem split_ok_fst (env : TEnv) (fs : FS) (D : Nat) (h : env.load = .ok D) :
    (split_and_transcribe env fs).1 =
      resultOf (loop env.engine D (segPlan D) (fsErase .fullTxt fs)).1 := by
  rcases hout : loop env.engine D (segPlan D) (fsErase .fullTxt fs) with ⟨r, fs2, evs⟩
  rw [split_ok_all env fs D h, hout]

/-- Filesystem of a run over a decoded source: the loop's filesystem with
the source deleted. -/
theorem split_ok_fs (env : TEnv) (fs : FS) (D : Nat) (h : env.load = .ok D) :
    (split_and_transcribe env fs).2.1 =
      fsErase .source (loop env.engine D (segPlan D) (fsErase .fullTxt fs)).2.1 := by
  rcases hout : loop env.engine D (segPlan D) (fsErase .fullTxt fs) with ⟨r, fs2, evs⟩
  rw [split_ok_all env fs D h, hout]

/-- Trace of a run over a decoded source: the loop's trace. -/
theorem split_ok_evs (env : TEnv) (fs : FS) (D : Nat) (h : env.load = .ok D) :
    (split_and_transcribe env fs).2.2 =
      (loop env.engine D (segPlan D) (fsErase .fullTxt fs)).2.2 := by
  rcases hout : loop env.engine D (segPlan D) (fsErase .fullTxt fs) with ⟨r, fs2, evs⟩
  rw [split_ok_all env fs D h, hout]

/-- Claim C1: for every invocation of split_and_transcribe — whatever the
audio decode and the engine do at any segment — afterwards no temporary
chunk mp3 and no per-segment transcript file of any index remains (each
per-segment deletion runs in the per-segment finally clause regardless of
the engine's success or failure, and deleting an absent file is not an
error), and the original source file is deleted on every exit path. -/
theorem c1_cleanup_all_paths (env : TEnv) (old : Option String) :
    (∀ j, fsGet (.chunk j) (split_and_transcribe env (initFS old)).2.1 = none ∧
          fsGet (.partTxt j) (split_and_transcribe env (initFS old)).2.1 = none) ∧
    fsGet .source (split_and_transcribe env (initFS old)).2.1 = none := by
  have hinit := initFS_noTemp old
  cases hload : env.load with
  | error u =>
      rw [split_err_fs env _ u hload]
      refine ⟨fun j => ⟨?_, ?_⟩, ?_⟩
      · rw [fsGet_fsErase, if_neg (by simp)]
        exact (hinit j).1
      · rw [fsGet_fsErase, if_neg (by simp)]
        exact (hinit j).2
      · rw [fsGet_fsErase, if_pos rfl]
  | ok D =>
      have hnt := loop_noTemp env.engine D (segPlan D) _ hinit
      rw [split_ok_fs env _ D hload]
      refine ⟨fun j => ⟨?_, ?_⟩, ?_⟩
      · rw [fsGet_fsErase, if_neg (by simp)]
        exact (hnt j).1
      · rw [fsGet_fsErase, if_neg (by simp)]
        exact (hnt j).2
      · rw [fsGet_fsErase, if_pos rfl]

/-- Witness for C1 at a concrete environment: the 25-minute scenario's
first two temporary artifacts and the source are gone afterwards. -/
theorem c1_cleanup_all_paths_witness :
    fsGet (.chunk 1) (split_and_transcribe ⟨.ok 1500000, scenarioEng⟩ (initFS none)).2.1 = none ∧
    fsGet (.partTxt 2) (split_and_transcribe ⟨.ok 1500000, scenarioEng⟩ (initFS none)).2.1 = none ∧
    fsGet .source (split_and_transcribe ⟨.ok 1500000, scenarioEng⟩ (initFS none)).2.1 = none := by
  have h := c1_cleanup_all_paths ⟨.ok 1500000, scenarioEng⟩ none
  exact ⟨(h.1 1).1, (h.1 2).2, h.2⟩

/-- Claim C4: the 25-minute source is planned as three segments of 10, 10
and 5 minutes; with segment 2's engine invocation failing, the run aborts
with that engine failure (the aggregate transcript is not returned), the
engine is invoked exactly once on segment 1 and once on segment 2 — no
third segment is materialised and no retry happens — both segments'
temporary artifacts are deleted, and the source file is deleted. -/
theorem c4_abort_scenario_25min :
    (pyRange 1500000 SEGMENT_MS).map (fun s => min SEGMENT_MS (1500000 - s)) =
        [600000, 600000, 300000]
    ∧ scenarioRun.1 = .error (.engineFailure 2 "boom")
    ∧ scenarioRun.2.2 = [.mkChunk 1 0 600000, .call 1, .mkChunk 2 600000 600000, .call 2]
    ∧ callsOf scenarioRun.2.2 = [1, 2]
    ∧ exportsOf scenarioRun.2.2 = [(1, 0, 600000), (2, 600000, 600000)]
    ∧ fsGet (.chunk 1) scenarioRun.2.1 = none ∧ fsGet (.partTxt 1) scenarioRun.2.1 = none
    ∧ fsGet (.chunk 2) scenarioRun.2.1 = none ∧ fsGet (.partTxt 2) scenarioRun.2.1 = none
    ∧ fsGet .source scenarioRun.2.1 = none := by
  decide

/-- Counterexample to claim C7: a readable source of zero duration does not
make split_and_transcribe fail with an IOFailure — the run returns
successfully (with the aggregate path), creating no segment and never
invoking the engine. -/
theorem c7_zero_duration_counterexample :
    (split_and_transcribe ⟨.ok 0, scenarioEng⟩ (initFS none)).1 = .ok .fullTxt ∧
    (split_and_transcribe ⟨.ok 0, scenarioEng⟩ (initFS none)).1 ≠ .error .ioFailure ∧
    (split_and_transcribe ⟨.ok 0, scenarioEng⟩ (initFS none)).2.2 = [] := by
  decide

/-- Claim C7 as amended: an unreadable source fails with an IOFailure before
any segment is created — no chunk is exported and the engine is never
invoked; a zero-duration source, however, does not fail: it creates no
segment, never invokes the engine, never writes the aggregate transcript
file, and returns successfully. -/
theorem c7_io_failure_amended :
    (∀ (eng : Nat → EngRes) (old : Option String),
      (split_and_transcribe ⟨.error (), eng⟩ (initFS old)).1 = .error .ioFailure ∧
      (split_and_transcribe ⟨.error (), eng⟩ (initFS old)).2.2 = []) ∧
    (∀ (eng : Nat → EngRes) (old : Option String),
      (split_and_transcribe ⟨.ok 0, eng⟩ (initFS old)).1 = .ok .fullTxt ∧
      (split_and_transcribe ⟨.ok 0, eng⟩ (initFS old)).2.2 = [] ∧
      fsGet .fullTxt (split_and_transcribe ⟨.ok 0, eng⟩ (initFS old)).2.1 = none) := by
  constructor
  · intro eng old
    exact ⟨split_err_fst ⟨.error (), eng⟩ (initFS old) () rfl,
           split_err_evs ⟨.error (), eng⟩ (initFS old) () rfl⟩
  · intro eng old
    have hplan0 : segPlan 0 = [] := by decide
    refine ⟨?_, ?_, ?_⟩
    · rw [split_ok_fst ⟨.ok 0, eng⟩ (initFS old) 0 rfl, hplan0]
      rfl
    · rw [split_ok_evs ⟨.ok 0, eng⟩ (initFS old) 0 rfl, hplan0]
      rfl
    · rw [split_ok_fs ⟨.ok 0, eng⟩ (initFS old) 0 rfl, hplan0]
      rw [show (loop eng 0 [] (fsErase .fullTxt (initFS old))).2.1 =
            fsErase .fullTxt (initFS old) from rfl]
      rw [fsGet_fsErase, if_neg (by simp), fsGet_fsErase, if_pos rfl]

/-- Witness for the amended C7 at concrete environments. -/
theorem c7_io_failure_amended_witness :
    (split_and_transcribe ⟨.error (), scenarioEng⟩ (initFS none)).1 = .error .ioFailure ∧
    (split_and_transcribe ⟨.ok 0, scenarioEng⟩ (initFS (some "OLD"))).1 = .ok .fullTxt := by
  exact ⟨(c7_io_failure_amended.1 scenarioEng none).1,
         (c7_io_failure_amended.2 scenarioEng (some "OLD")).1⟩

end Transcribe

namespace Transcribe

/-- Evaluation of one loop iteration when the engine succeeds on segment i:
the slice is exported, the engine output is written, read back, trimmed and
appended with a line break, and both temporaries are deleted. -/
theorem processSeg_allOk (t : Nat → String) (D i start : Nat) (fs : FS) :
    processSeg (allOk t) D i start fs =
      (.ok (), fsErase (.partTxt i) (fsErase (.chunk i)
          (fsAppend .fullTxt (pyStripS (t i) ++ "\n")
            (fsSet (.partTxt i) (.text (t i))
              (fsSet (.chunk i) (.audioSlice start (min SEGMENT_MS (D - start))) fs)))),
       [Ev.mkChunk i start (min SEGMENT_MS (D - start)), Ev.call i]) := by
  simp [processSeg, transcribe_chunk, allOk]

/-- With an always-succeeding engine the loop succeeds and its trace is one
chunk export followed by one engine call per planned segment, in order. -/
theorem loop_allOk_run (t : Nat → String) (D : Nat) :
    ∀ (segs : List (Nat × Nat)) (fs : FS),
      (loop (allOk t) D segs fs).1 = .ok () ∧
      (loop (allOk t) D segs fs).2.2 =
        segs.flatMap (fun p => [Ev.mkChunk p.1 p.2 (min SEGMENT_MS (D - p.2)), Ev.call p.1]) := by
  intro segs
  induction segs with
  | nil => intro fs; simp [loop]
  | cons p rest ih =>
      intro fs
      obtain ⟨i, s⟩ := p
      simp [loop, processSeg_allOk, ih]

/-- With an always-succeeding engine the loop appends exactly the ordered
trimmed transcripts, one line break each, to the aggregate file. -/
theorem loop_allOk_full (t : Nat → String) (D : Nat) :
    ∀ (segs : List (Nat × Nat)) (fs : FS) (c : String),
      fsGet .fullTxt fs = some (.text c) →
      fsGet .fullTxt (loop (allOk t) D segs fs).2.1 =
        some (.text (c ++ joinSegs t segs)) := by
  intro segs
  induction segs with
  | nil => intro fs c h; simpa [loop, joinSegs] using h
  | cons p rest ih =>
      intro fs c h
      obtain ⟨i, s⟩ := p
      have hc : fsGet .fullTxt
          (fsErase (.partTxt i) (fsErase (.chunk i)
            (fsAppend .fullTxt (pyStripS (t i) ++ "\n")
              (fsSet (.partTxt i) (.text (t i))
                (fsSet (.chunk i) (.audioSlice s (min SEGMENT_MS (D - s))) fs))))) =
          some (.text (c ++ (pyStripS (t i) ++ "\n"))) := by
        rw [fsGet_fsErase, fsGet_fsErase]
        simp only [reduceCtorEq, if_false]
        rw [fsGet_fsAppend_self]
        rw [fsGet_fsSet, fsGet_fsSet]
        simp [h, contentOr]
      simp only [loop, processSeg_allOk]
      rw [ih _ _ hc]
      simp [joinSegs, String.append_assoc]

/-- The aggregate-transcript content of a successful run over a positive
duration: exactly the ordered concatenation of this run's trimmed segment
transcripts, one line break after each, whatever aggregate file a previous
run may have left. -/
theorem runWith_full (D : Nat) (t : Nat → String) (old : Option String) (hD : 0 < D) :
    fsGet .fullTxt (runWith D t old).2.1 = some (.text (joinSegs t (segPlan D))) := by
  obtain ⟨m, hm⟩ : ∃ m, (D + SEGMENT_MS - 1) / SEGMENT_MS = m + 1 := by
    refine ⟨(D + SEGMENT_MS - 1) / SEGMENT_MS - 1, ?_⟩
    simp only [SEGMENT_MS]
    omega
  have hplan : segPlan D = (1, 0) :: enumFrom 2 (List.range' SEGMENT_MS m SEGMENT_MS) := by
    rw [segPlan, pyRange, hm, List.range'_succ]
    simp [enumFrom]
  have hfs0 : fsGet .fullTxt (fsErase .fullTxt (initFS old)) = none := by
    simp
  have hfirst : fsGet .fullTxt
      (fsErase (.partTxt 1) (fsErase (.chunk 1)
        (fsAppend .fullTxt (pyStripS (t 1) ++ "\n")
          (fsSet (.partTxt 1) (.text (t 1))
            (fsSet (.chunk 1) (.audioSlice 0 (min SEGMENT_MS (D - 0)))
              (fsErase .fullTxt (initFS old))))))) =
      some (.text (pyStripS (t 1) ++ "\n")) := by
    rw [fsGet_fsErase, fsGet_fsErase]
    simp only [reduceCtorEq, if_false]
    rw [fsGet_fsAppend_self]
    rw [fsGet_fsSet, fsGet_fsSet]
    simp [hfs0, contentOr]
  have hrest := loop_allOk_full t D (enumFrom 2 (List.range' SEGMENT_MS m SEGMENT_MS)) _ _ hfirst
  rw [runWith, split_ok_fs ⟨.ok D, allOk t⟩ (initFS old) D rfl]
  rw [fsGet_fsErase]
  simp only [reduceCtorEq, if_false]
  rw [hplan]
  simp only [loop, processSeg_allOk]
  rw [hrest]
  simp [joinSegs, String.append_assoc]

/-- Claim C3: a successful invocation over the segments of a positive
duration returns the aggregate transcript whose content equals the
concatenation, in increasing segment-index order, of each segment
transcript's trimmed text followed by one line break. -/
theorem c3_transcript_is_ordered_concat (D : Nat) (t : Nat → String) (old : Option String)
    (hD : 0 < D) :
    (runWith D t old).1 = .ok .fullTxt ∧
    fsGet .fullTxt (runWith D t old).2.1 = some (.text (joinSegs t (segPlan D))) := by
  refine ⟨?_, runWith_full D t old hD⟩
  rw [runWith, split_ok_fst ⟨.ok D, allOk t⟩ (initFS old) D rfl,
    (loop_allOk_run t D (segPlan D) (fsErase .fullTxt (initFS old))).1]
  rfl

/-- Witness for C3: a 600,001 ms source gives two segments whose trimmed
texts concatenate to the aggregate content. -/
theorem c3_transcript_is_ordered_concat_witness :
    joinSegs tWit (segPlan 600001) = "a\nb\n" ∧
    fsGet .fullTxt (runWith 600001 tWit none).2.1 = some (.text "a\nb\n") := by
  have h := c3_transcript_is_ordered_concat 600001 tWit none (by norm_num)
  exact ⟨by decide, h.2.trans (by decide)⟩

/-- Claim C10: any pre-existing aggregate transcript for the same stem is
deleted before the first segment is processed, so a successful run's
aggregate content is exactly this invocation's appends — identical to the
content a run from a clean filesystem produces — and never contains
left-over text. -/
theorem c10_stale_transcript_erased (stale : String) (D : Nat) (t : Nat → String)
    (hD : 0 < D) :
    fsGet .fullTxt (runWith D t (some stale)).2.1 = fsGet .fullTxt (runWith D t none).2.1 ∧
    fsGet .fullTxt (runWith D t (some stale)).2.1 = some (.text (joinSegs t (segPlan D))) := by
  have h1 := runWith_full D t (some stale) hD
  have h2 := runWith_full D t none hD
  exact ⟨h1.trans h2.symm, h1⟩

/-- Witness for C10: a stale aggregate "OLD" never reaches the result. -/
theorem c10_stale_transcript_erased_witness :
    fsGet .fullTxt (runWith 1 tWit (some "OLD")).2.1 = some (.text "a\n") := by
  have h := c10_stale_transcript_erased "OLD" 1 tWit (by norm_num)
  exact h.2.trans (by decide)

end Transcribe

namespace Transcribe

/-- Enumerating a stepped range from a given ordinal yields pairs of ordinal
and start offset indexed over an initial segment of the naturals. -/
theorem enumFrom_range' (step : Nat) :
    ∀ (m k s : Nat), enumFrom k (List.range' s m step) =
      (List.range m).map (fun j => (k + j, s + step * j)) := by
  intro m
  induction m with
  | zero => intro k s; simp [enumFrom]
  | succ m ih =>
      intro k s
      rw [List.range'_succ, List.range_succ_eq_map]
      simp only [enumFrom, List.map_cons, List.map_map]
      rw [ih (k + 1) (s + step)]
      congr 1
      refine List.map_congr_left ?_
      intro j _
      simp only [Function.comp_apply, Prod.mk.injEq, Nat.mul_succ]
      omega

/-- The segment plan in closed form: ordinal j+1 starts at offset
SEGMENT_MS times j, for j below the rounded-up segment count. -/
theorem segPlan_eq (D : Nat) :
    segPlan D = (List.range ((D + SEGMENT_MS - 1) / SEGMENT_MS)).map
      (fun j => (1 + j, SEGMENT_MS * j)) := by
  rw [segPlan, pyRange, enumFrom_range']
  refine List.map_congr_left ?_
  intro j _
  simp

/-- Chunk-export events of the all-ok trace, one per planned segment. -/
theorem exportsOf_flat (D : Nat) :
    ∀ (segs : List (Nat × Nat)),
      exportsOf (segs.flatMap
        (fun p => [Ev.mkChunk p.1 p.2 (min SEGMENT_MS (D - p.2)), Ev.call p.1])) =
      segs.map (fun p => (p.1, p.2, min SEGMENT_MS (D - p.2))) := by
  intro segs
  induction segs with
  | nil => simp [exportsOf]
  | cons p r ih =>
      have hstep : (p :: r).flatMap
          (fun p => [Ev.mkChunk p.1 p.2 (min SEGMENT_MS (D - p.2)), Ev.call p.1]) =
          Ev.mkChunk p.1 p.2 (min SEGMENT_MS (D - p.2)) :: Ev.call p.1 ::
            r.flatMap (fun p => [Ev.mkChunk p.1 p.2 (min SEGMENT_MS (D - p.2)), Ev.call p.1]) :=
        rfl
      rw [hstep]
      simp only [exportsOf, ih, List.map_cons]

/-- Claim C2: a run over a source of duration D partitions it into exactly
ceil(D/SEGMENT_MS) consecutive exported segments in temporal order — the
j-th export is segment j+1 starting at offset SEGMENT_MS times j — each of
length SEGMENT_MS except the last, whose length is D mod SEGMENT_MS (or
SEGMENT_MS when D divides evenly); a positive source shorter than one
window yields exactly one segment. -/
theorem c2_segment_partition (D : Nat) (t : Nat → String) (old : Option String) :
    exportsOf (runWith D t old).2.2 =
      (List.range ((D + SEGMENT_MS - 1) / SEGMENT_MS)).map
        (fun j => (1 + j, SEGMENT_MS * j, min SEGMENT_MS (D - SEGMENT_MS * j)))
    ∧ (exportsOf (runWith D t old).2.2).length = (D + SEGMENT_MS - 1) / SEGMENT_MS
    ∧ (∀ k, k + 1 < (D + SEGMENT_MS - 1) / SEGMENT_MS →
        (exportsOf (runWith D t old).2.2)[k]? = some (1 + k, SEGMENT_MS * k, SEGMENT_MS))
    ∧ (0 < D →
        (exportsOf (runWith D t old).2.2).getLast? =
          some (1 + ((D + SEGMENT_MS - 1) / SEGMENT_MS - 1),
                SEGMENT_MS * ((D + SEGMENT_MS - 1) / SEGMENT_MS - 1),
                if D % SEGMENT_MS = 0 then SEGMENT_MS else D % SEGMENT_MS))
    ∧ (0 < D → D < SEGMENT_MS → (exportsOf (runWith D t old).2.2).length = 1) := by
  have hmain : exportsOf (runWith D t old).2.2 =
      (List.range ((D + SEGMENT_MS - 1) / SEGMENT_MS)).map
        (fun j => (1 + j, SEGMENT_MS * j, min SEGMENT_MS (D - SEGMENT_MS * j))) := by
    rw [runWith, split_ok_evs ⟨.ok D, allOk t⟩ (initFS old) D rfl,
      (loop_allOk_run t D (segPlan D) (fsErase .fullTxt (initFS old))).2,
      exportsOf_flat, segPlan_eq, List.map_map]
    rfl
  refine ⟨hmain, ?_, ?_, ?_, ?_⟩
  · rw [hmain]; simp
  · intro k hk
    have hmin : min SEGMENT_MS (D - SEGMENT_MS * k) = SEGMENT_MS := by
      rw [Nat.min_def]
      have h600 : SEGMENT_MS ≤ D - SEGMENT_MS * k := by
        simp only [SEGMENT_MS] at hk ⊢
        omega
      simp [h600]
    rw [hmain, List.getElem?_map, List.getElem?_range (by omega)]
    simp [hmin]
  · intro hD
    have hn : 0 < (D + SEGMENT_MS - 1) / SEGMENT_MS := by
      simp only [SEGMENT_MS]
      omega
    have hmin2 : min SEGMENT_MS (D - SEGMENT_MS * ((D + SEGMENT_MS - 1) / SEGMENT_MS - 1)) =
        if D % SEGMENT_MS = 0 then SEGMENT_MS else D % SEGMENT_MS := by
      rw [Nat.min_def]
      simp only [SEGMENT_MS] at hD hn ⊢
      split_ifs <;> omega
    rw [hmain, List.getLast?_eq_getElem?]
    simp only [List.length_map, List.length_range]
    rw [List.getElem?_map, List.getElem?_range (by omega)]
    simp [hmin2]
  · intro h1 h2
    rw [hmain]
    simp only [List.length_map, List.length_range]
    simp only [SEGMENT_MS] at h1 h2 ⊢
    omega

/-- Witness for C2: the 25-minute source concretely partitions into exactly
the three exports of lengths 10, 10 and 5 minutes. -/
theorem c2_segment_partition_witness :
    exportsOf (runWith 1500000 tWit none).2.2 =
      [(1, 0, 600000), (2, 600000, 600000), (3, 1200000, 300000)]
    ∧ (exportsOf (runWith 1500000 tWit none).2.2).getLast? = some (3, 1200000, 300000) := by
  have h := c2_segment_partition 1500000 tWit none
  exact ⟨by decide, (h.2.2.2.1 (by norm_num)).trans (by decide)⟩

end Transcribe

namespace Markup

mutual
theorem shapeN_san : ∀ n : Node, shapeN (sanitizeN n) = shapeN n
  | .text s => rfl
  | .elem t cs => by simp [sanitizeN, shapeN, shapeL_san cs]
theorem shapeL_san : ∀ l : NodeList, shapeL (sanitizeL l) = shapeL l
  | .nil => rfl
  | .cons n l => by simp [sanitizeL, shapeL, shapeN_san n, shapeL_san l]
end

mutual
theorem textsN_san : ∀ n : Node, textsN (sanitizeN n) = (textsN n).map sanitizeText
  | .text s => rfl
  | .elem t cs => by simp [sanitizeN, textsN, textsL_san cs]
theorem textsL_san : ∀ l : NodeList, textsL (sanitizeL l) = (textsL l).map sanitizeText
  | .nil => rfl
  | .cons n l => by simp [sanitizeL, textsN, textsL, textsN_san n, textsL_san l]
end

/-- Matching at the head characterised: pat begins s iff s extends pat. -/
theorem begMatch_iff : ∀ (p s : List Char), begMatch p s = true ↔ ∃ v, s = p ++ v
  | [], s => by
      constructor
      · intro _; exact ⟨s, rfl⟩
      · intro _; rfl
  | c :: p, [] => by simp [begMatch]
  | c :: p, a :: rest => by
      simp only [begMatch, Bool.and_eq_true, decide_eq_true_eq]
      rw [begMatch_iff p rest]
      constructor
      · rintro ⟨rfl, v, rfl⟩
        exact ⟨v, rfl⟩
      · rintro ⟨v, hv⟩
        rw [List.cons_append] at hv
        injection hv with h1 h2
        exact ⟨h1.symm, v, h2⟩

/-- Substring occurrence characterised as a three-way split. -/
theorem hasSub_iff : ∀ (p s : List Char), hasSub p s = true ↔ ∃ u v, s = u ++ (p ++ v)
  | p, [] => by
      constructor
      · intro h
        have hp : p = [] := by simpa [hasSub, List.isEmpty_iff] using h
        exact ⟨[], [], by simp [hp]⟩
      · rintro ⟨u, v, huv⟩
        have h0 : u ++ (p ++ v) = [] := huv.symm
        simp only [List.append_eq_nil] at h0
        simp [hasSub, List.isEmpty_iff, h0.2.1]
  | p, c :: rest => by
      simp only [hasSub, Bool.or_eq_true]
      rw [begMatch_iff p (c :: rest), hasSub_iff p rest]
      constructor
      · rintro (⟨v, hv⟩ | ⟨u, v, huv⟩)
        · exact ⟨[], v, by simpa using hv⟩
        · exact ⟨c :: u, v, by rw [List.cons_append, huv]⟩
      · rintro ⟨u, v, huv⟩
        cases u with
        | nil =>
            left
            rw [List.nil_append] at huv
            exact ⟨v, huv⟩
        | cons a u' =>
            right
            rw [List.cons_append] at huv
            injection huv with h1 h2
            exact ⟨u', v, h2⟩

/-- A substring of the left part occurs in an append. -/
theorem hasSub_append_left (p a b : List Char) (h : hasSub p a = true) :
    hasSub p (a ++ b) = true := by
  rw [hasSub_iff] at h ⊢
  obtain ⟨u, v, rfl⟩ := h
  exact ⟨u, v ++ b, by simp⟩

/-- A substring of the right part occurs in an append. -/
theorem hasSub_append_right (p a b : List Char) (h : hasSub p b = true) :
    hasSub p (a ++ b) = true := by
  rw [hasSub_iff] at h ⊢
  obtain ⟨u, v, rfl⟩ := h
  exact ⟨a ++ u, v, by simp⟩

/-- Escaping distributes over append. -/
theorem escape_append (a b : List Char) : escape (a ++ b) = escape a ++ escape b := by
  simp [escape]

/-- The fence marker is untouched by escaping. -/
theorem escape_fence3 : escape fence3 = fence3 := by decide

/-- Escaping preserves the occurrence of the fence marker. -/
theorem hasSub_escape (s : List Char) (h : hasSub fence3 s = true) :
    hasSub fence3 (escape s) = true := by
  rw [hasSub_iff] at h
  obtain ⟨u, v, rfl⟩ := h
  rw [hasSub_iff]
  refine ⟨escape u, escape v, ?_⟩
  rw [escape_append, escape_append, escape_fence3]

mutual
theorem fence_in_serialN : ∀ n : Node,
    (textsN n).any (fun s => hasSub fence3 s) = true →
    hasSub fence3 (serializeN n) = true
  | .text s => by
      intro h
      simp only [textsN, List.any_cons, List.any_nil, Bool.or_false] at h
      exact hasSub_escape s h
  | .elem t cs => by
      intro h
      have h2 := fence_in_serialL cs (by simpa [textsN] using h)
      simp only [serializeN]
      apply hasSub_append_left
      apply hasSub_append_left
      apply hasSub_append_left
      exact hasSub_append_right _ _ _ h2
theorem fence_in_serialL : ∀ l : NodeList,
    (textsL l).any (fun s => hasSub fence3 s) = true →
    hasSub fence3 (serializeL l) = true
  | .nil => by simp [textsL]
  | .cons n l => by
      intro h
      simp only [textsL, List.any_append, Bool.or_eq_true] at h
      simp only [serializeL]
      rcases h with h | h
      · exact hasSub_append_left _ _ _ (fence_in_serialN n h)
      · exact hasSub_append_right _ _ _ (fence_in_serialL l h)
end

mutual
theorem sanitizeN_id : ∀ n : Node,
    (textsN n).all (fun s => !hasSub fence3 s) = true → sanitizeN n = n
  | .text s => by
      intro h
      have hf : hasSub fence3 s = false := by simpa [textsN] using h
      simp [sanitizeN, sanitizeText, hf]
  | .elem t cs => by
      intro h
      simp [sanitizeN, sanitizeL_id cs (by simpa [textsN] using h)]
theorem sanitizeL_id : ∀ l : NodeList,
    (textsL l).all (fun s => !hasSub fence3 s) = true → sanitizeL l = l
  | .nil => by intro _; rfl
  | .cons n l => by
      intro h
      simp only [textsL, List.all_append, Bool.and_eq_true] at h
      simp [sanitizeL, sanitizeN_id n h.1, sanitizeL_id l h.2]
end

/-- Claim C9: fence-stripping is idempotent on already-clean output — when a
first application leaves serialised markup containing no fence marker, a
second application changes neither the tree nor its serialisation. -/
theorem c9_sanitize_idempotent (ns : NodeList)
    (h : hasSub fence3 (serializeL (sanitizeL ns)) = false) :
    sanitizeL (sanitizeL ns) = sanitizeL ns ∧
    serializeL (sanitizeL (sanitizeL ns)) = serializeL (sanitizeL ns) := by
  have hall : (textsL (sanitizeL ns)).all (fun s => !hasSub fence3 s) = true := by
    cases hany : (textsL (sanitizeL ns)).any (fun s => hasSub fence3 s) with
    | true =>
        have := fence_in_serialL (sanitizeL ns) hany
        rw [h] at this
        exact absurd this (by simp)
    | false =>
        rw [List.all_eq_true]
        intro x hx
        have hx' := List.any_eq_false.mp hany x hx
        simpa using hx'
  have hid := sanitizeL_id _ hall
  exact ⟨hid, by rw [hid]⟩

/-- Witness for C9 at a concrete tree: the fence scenario tree sanitises to
fence-free output on which sanitisation is then the identity. -/
theorem c9_sanitize_idempotent_witness :
    hasSub fence3 (serializeL (sanitizeL T6)) = false ∧
    sanitizeL (sanitizeL T6) = sanitizeL T6 :=
  ⟨by decide, (c9_sanitize_idempotent T6 (by decide)).1⟩

end Markup

namespace Markup

/-- The h2 tag is not the section tag. -/
theorem h2T_ne_secT : ¬ (h2T = secT) := by decide

/-- Children of a headed flat section pass through the walk unchanged and
extend no key. -/
theorem dedupL_secChildren (s : List (List Char)) (h b : List Char) :
    dedupL s (.cons (.elem h2T (.cons (.text h) .nil)) (.cons (.text b) .nil)) =
      (.cons (.elem h2T (.cons (.text h) .nil)) (.cons (.text b) .nil), s) := by
  simp [dedupL, h2T_ne_secT]

/-- Children of a headingless flat section pass through unchanged. -/
theorem dedupL_bodyOnly (s : List (List Char)) (b : List Char) :
    dedupL s (.cons (.text b) .nil) = (.cons (.text b) .nil, s) := by
  simp [dedupL]

/-- The heading search finds the h2 of a headed flat section. -/
theorem findH2_secChildren (h b : List Char) :
    findH2 (.cons (.elem h2T (.cons (.text h) .nil)) (.cons (.text b) .nil)) =
      some (.elem h2T (.cons (.text h) .nil)) := by
  simp [findH2]

/-- The heading search finds nothing in a headingless flat section. -/
theorem findH2_bodyOnly (b : List Char) : findH2 (.cons (.text b) .nil) = none := by
  simp [findH2]

/-- Text content of a flat h2 element is its heading text. -/
theorem textN_h2 (h : List Char) : textN (.elem h2T (.cons (.text h) .nil)) = h := by
  simp [textN, textL]

/-- The deduplication walk on a flat fragment equals the first-occurrence
filter, for every starting key set. -/
theorem dedupL_mkFrag : ∀ (l : List (Option (List Char) × List Char)) (seen : List (List Char)),
    (dedupL seen (mkFrag l)).1 = mkFrag (keepFirstAux seen l)
  | [], seen => rfl
  | (some h, b) :: r, seen => by
      simp only [mkFrag, mkSection]
      by_cases hmem : stripL h ∈ seen
      · simp [dedupL, findH2_secChildren, textN_h2, hmem, keepFirstAux,
          dedupL_mkFrag r seen]
      · simp [dedupL, findH2_secChildren, textN_h2, hmem, keepFirstAux,
          dedupL_secChildren, h2T_ne_secT, mkFrag, mkSection,
          dedupL_mkFrag r (stripL h :: seen)]
  | (none, b) :: r, seen => by
      simp only [mkFrag, mkSection]
      simp [dedupL, findH2_bodyOnly, dedupL_bodyOnly, keepFirstAux, mkFrag,
        dedupL_mkFrag r seen]

/-- Claim C5: on a flat fragment of sections, visited in document order, a
section with a heading is keyed by the heading's trimmed text; the first
section of a key is kept, every later section with an equal key is removed
whole, and sections without a heading are always kept — in particular the
fragment keyed A,B,A,C,B cleans to the first A, the first B and C, in that
relative order. -/
theorem c5_dedup_keeps_first :
    (∀ l : List (Option (List Char) × List Char),
      (dedupL [] (mkFrag l)).1 = mkFrag (keepFirstAux [] l)) ∧
    (dedupL [] (mkFrag scenarioFrag)).1 =
      mkFrag [(some "A".toList, "1".toList), (some "B".toList, "2".toList),
              (some "C".toList, "4".toList)] := by
  refine ⟨fun l => dedupL_mkFrag l [], ?_⟩
  exact (dedupL_mkFrag scenarioFrag []).trans (by decide)

/-- Witness for C5 at a further concrete fragment: a headingless section is
kept and a later section whose heading trims to an already-seen key is
removed. -/
theorem c5_dedup_keeps_first_witness :
    (dedupL [] (mkFrag [(none, "x".toList), (some "A".toList, "1".toList),
        (some " A ".toList, "2".toList)])).1 =
      mkFrag [(none, "x".toList), (some "A".toList, "1".toList)] := by
  have h := c5_dedup_keeps_first.1
    [(none, "x".toList), (some "A".toList, "1".toList), (some " A ".toList, "2".toList)]
  exact h.trans (by decide)

/-- Counterexample to claim C6: the tree T6 is a faithful parse of the fence
scenario input — it serialises back to it verbatim — yet sanitising does
not produce the claimed output: the newline that followed the opening fence
marker survives, because only the marker substrings themselves are removed
from text nodes. -/
theorem c6_fence_scenario_counterexample :
    String.mk (serializeL T6) = "```html\n<section><h2>Skills</h2>X</section>```" ∧
    Portfolio.sanitize_html (fun _ => T6) "```html\n<section><h2>Skills</h2>X</section>```" ≠
      "<section><h2>Skills</h2>X</section>" ∧
    Portfolio.sanitize_html (fun _ => T6) "```html\n<section><h2>Skills</h2>X</section>```" =
      "\n<section><h2>Skills</h2>X</section>" := by
  refine ⟨by decide, by decide, by decide⟩

/-- Claim C6 as amended: fence-stripping touches text nodes only — the
element shape is preserved and the text nodes are exactly the originals
with the fence markers removed — and the scenario input sanitises to the
original fragment preceded by the newline that followed the opening fence
marker. -/
theorem c6_fence_strip_amended :
    (∀ ns : NodeList, shapeL (sanitizeL ns) = shapeL ns ∧
        textsL (sanitizeL ns) = (textsL ns).map sanitizeText) ∧
    Portfolio.sanitize_html (fun _ => T6) "```html\n<section><h2>Skills</h2>X</section>```" =
      "\n<section><h2>Skills</h2>X</section>" := by
  exact ⟨fun ns => ⟨shapeL_san ns, textsL_san ns⟩, by decide⟩

/-- Witness for the amended C6 at the scenario tree. -/
theorem c6_fence_strip_amended_witness :
    shapeL (sanitizeL T6) = shapeL T6 ∧
    textsL (sanitizeL T6) = (textsL T6).map sanitizeText :=
  c6_fence_strip_amended.1 T6

end Markup

namespace Portfolio

/-- The PDF stage returns the page unchanged, with the renderer's bytes on
success and empty bytes when the renderer fails. -/
theorem finishPdf_shape (env : PEnv) (full html : String) (bytes : List Nat)
    (h : finishPdf env full = .ok (html, bytes)) :
    html = full ∧
    (env.renderPdf html = .ok bytes ∨ ((∃ e, env.renderPdf html = .error e) ∧ bytes = [])) := by
  rw [finishPdf] at h
  cases hrp : env.renderPdf full with
  | ok b =>
      rw [hrp] at h
      rw [Except.ok.injEq, Prod.mk.injEq] at h
      obtain ⟨h1, h2⟩ := h
      subst h1
      subst h2
      exact ⟨rfl, Or.inl hrp⟩
  | error e =>
      rw [hrp] at h
      rw [Except.ok.injEq, Prod.mk.injEq] at h
      obtain ⟨h1, h2⟩ := h
      subst h1
      subst h2
      exact ⟨rfl, Or.inr ⟨⟨e, hrp⟩, rfl⟩⟩

/-- Every pipeline result is an error or a page with bytes. -/
theorem gen_total (env : PEnv) (p : String) :
    (∃ e, generate_portfolio env p = .error e) ∨
    (∃ html bytes, generate_portfolio env p = .ok (html, bytes)) := by
  cases hg : generate_portfolio env p with
  | error e => exact Or.inl ⟨e, rfl⟩
  | ok pr =>
      obtain ⟨a, b⟩ := pr
      exact Or.inr ⟨a, b, rfl⟩

/-- A returned page means every stage before PDF rendering succeeded, and
the bytes are the renderer's output or empty exactly when the renderer
failed. -/
theorem gen_ok_stages (env : PEnv) (p : String) (html : String) (bytes : List Nat)
    (h : generate_portfolio env p = .ok (html, bytes)) :
    Transcribe.pyStripS p ≠ "" ∧ (∃ v, env.promptTpl = .ok v) ∧ (∃ v, env.layoutTpl = .ok v) ∧
    (∃ v, env.modelDownload = .ok v) ∧ env.modelInit = .ok () ∧
    (∃ v, env.llmText = .ok v ∧
      (Markup.begMatch "\x7b".toList (pyLStrip (Transcribe.pyStripS v).toList)
        && !Markup.hasSub "<section".toList (Transcribe.pyStripS v).toList) = false) ∧
    (env.renderPdf html = .ok bytes ∨ ((∃ e, env.renderPdf html = .error e) ∧ bytes = [])) := by
  rw [generate_portfolio] at h
  by_cases hp : Transcribe.pyStripS p = ""
  · rw [if_pos hp] at h
    exact absurd h (by simp)
  · rw [if_neg hp] at h
    split at h
    · exact absurd h (by simp)
    · rename_i ptpl heq_pt
      split at h
      · exact absurd h (by simp)
      · rename_i ltpl heq_lt
        split at h
        · exact absurd h (by simp)
        · rename_i mpath heq_md
          split at h
          · exact absurd h (by simp)
          · rename_i u heq_mi
            split at h
            · exact absurd h (by simp)
            · rename_i resp heq_ll
              dsimp only at h
              split at h
              · exact absurd h (by simp)
              · rename_i hns
                refine ⟨hp, ⟨ptpl, heq_pt⟩, ⟨ltpl, heq_lt⟩, ⟨mpath, heq_md⟩,
                  by cases u; exact heq_mi, ⟨resp, heq_ll, by simpa using hns⟩, ?_⟩
                exact (finishPdf_shape env _ html bytes h).2

/-- Counterexample to claim C8: with every stage succeeding except the PDF
renderer, which fails on every input, generate_portfolio does not abort —
it returns the full page with empty PDF bytes, a partial result. -/
theorem c8_pdf_failure_counterexample :
    (∀ s, envPdfFail.renderPdf s = .error .renderFailed) ∧
    generate_portfolio envPdfFail "hi" = .ok ("L", []) := by
  exact ⟨fun _ => rfl, by decide⟩

/-- Claim C8 as amended: a failure at any stage before PDF rendering — empty
input, template loading, model download, model initialisation, generation,
or a clarification-request response (brace-prefixed text without section
markup) — aborts the pipeline entirely and no result is returned; a failure
at the PDF-rendering stage alone does not abort: the generated page is
returned with empty PDF bytes. -/
theorem c8_propagation_amended (env : PEnv) (p : String) :
    (Transcribe.pyStripS p = "" → ∃ e, generate_portfolio env p = .error e) ∧
    ((∃ e, env.promptTpl = .error e) → ∃ e, generate_portfolio env p = .error e) ∧
    ((∃ e, env.layoutTpl = .error e) → ∃ e, generate_portfolio env p = .error e) ∧
    ((∃ e, env.modelDownload = .error e) → ∃ e, generate_portfolio env p = .error e) ∧
    ((∃ e, env.modelInit = .error e) → ∃ e, generate_portfolio env p = .error e) ∧
    ((∃ e, env.llmText = .error e) → ∃ e, generate_portfolio env p = .error e) ∧
    ((∃ resp, env.llmText = .ok resp ∧
        (Markup.begMatch "\x7b".toList (pyLStrip (Transcribe.pyStripS resp).toList)
          && !Markup.hasSub "<section".toList (Transcribe.pyStripS resp).toList) = true) →
      ∃ e, generate_portfolio env p = .error e) ∧
    (∀ html bytes, generate_portfolio env p = .ok (html, bytes) →
        env.renderPdf html = .ok bytes ∨
          ((∃ e, env.renderPdf html = .error e) ∧ bytes = [])) := by
  refine ⟨?_, ?_, ?_, ?_, ?_, ?_, ?_, ?_⟩
  · intro hp
    rcases gen_total env p with ⟨e, he⟩ | ⟨html, bytes, hok⟩
    · exact ⟨e, he⟩
    · exact absurd hp (gen_ok_stages env p html bytes hok).1
  · rintro ⟨e, he⟩
    rcases gen_total env p with ⟨e', he'⟩ | ⟨html, bytes, hok⟩
    · exact ⟨e', he'⟩
    · obtain ⟨v, hv⟩ := (gen_ok_stages env p html bytes hok).2.1
      rw [he] at hv
      exact absurd hv (by simp)
  · rintro ⟨e, he⟩
    rcases gen_total env p with ⟨e', he'⟩ | ⟨html, bytes, hok⟩
    · exact ⟨e', he'⟩
    · obtain ⟨v, hv⟩ := (gen_ok_stages env p html bytes hok).2.2.1
      rw [he] at hv
      exact absurd hv (by simp)
  · rintro ⟨e, he⟩
    rcases gen_total env p with ⟨e', he'⟩ | ⟨html, bytes, hok⟩
    · exact ⟨e', he'⟩
    · obtain ⟨v, hv⟩ := (gen_ok_stages env p html bytes hok).2.2.2.1
      rw [he] at hv
      exact absurd hv (by simp)
  · rintro ⟨e, he⟩
    rcases gen_total env p with ⟨e', he'⟩ | ⟨html, bytes, hok⟩
    · exact ⟨e', he'⟩
    · have hv := (gen_ok_stages env p html bytes hok).2.2.2.2.1
      rw [he] at hv
      exact absurd hv (by simp)
  · rintro ⟨e, he⟩
    rcases gen_total env p with ⟨e', he'⟩ | ⟨html, bytes, hok⟩
    · exact ⟨e', he'⟩
    · obtain ⟨v, hv, _⟩ := (gen_ok_stages env p html bytes hok).2.2.2.2.2.1
      rw [he] at hv
      exact absurd hv (by simp)
  · rintro ⟨resp, hresp, hguard⟩
    rcases gen_total env p with ⟨e', he'⟩ | ⟨html, bytes, hok⟩
    · exact ⟨e', he'⟩
    · obtain ⟨v, hv, hvg⟩ := (gen_ok_stages env p html bytes hok).2.2.2.2.2.1
      rw [hresp] at hv
      injection hv with hveq
      subst hveq
      rw [hguard] at hvg
      exact absurd hvg (by simp)
  · intro html bytes hok
    exact (gen_ok_stages env p html bytes hok).2.2.2.2.2.2

/-- Witness for the amended C8: a generation failure aborts with an error, a
clarification-request response (a brace-prefixed reply with no section markup)
aborts with an error, and the PDF-failure run returns the page with empty
bytes as characterised. -/
theorem c8_propagation_amended_witness :
    (∃ e, generate_portfolio envLlmFail "hi" = .error e) ∧
    (∃ e, generate_portfolio envClarify "hi" = .error e) ∧
    (envPdfFail.renderPdf "L" = .ok [] ∨
      ((∃ e, envPdfFail.renderPdf "L" = .error e) ∧ ([] : List Nat) = [])) := by
  refine ⟨(c8_propagation_amended envLlmFail "hi").2.2.2.2.2.1 ⟨.generationFailed, rfl⟩,
    (c8_propagation_amended envClarify "hi").2.2.2.2.2.2.1 ⟨"\x7b\x7d", rfl, by decide⟩,
    (c8_propagation_amended envPdfFail "hi").2.2.2.2.2.2.2 "L" [] (by decide)⟩

end Portfolio
